import Mathlib

/-!
# godash: generic slice helpers (`utils.go`)

A shallow embedding of the six functions of `utils.go` and the properties
stated about them.

Modelling conventions.

* A Go slice `[]A` is a `List A`; `len(s)` is `s.length`; `append(s, x)` is
  `s ++ [x]`.
* `for i, item := range slc` is a recursion over the list that carries the
  index `i` and every variable the loop body assigns.
* Go's `int` is taken at 64 bits: arithmetic on it is arithmetic on `Int`
  followed by `wrapInt`.
* A call either returns a value (`Except.ok`) or stops with a `Fault`
  (`Except.error`): the run-time panics of `make` and of an indexed write are
  explicit.
* `makeslice` is `make` with the run-time's check of the requested size against
  its allocation limit; `make` is `makeslice` without that check, which is what
  `makeslice` does for every request within the limit.  `Range` allocates
  through `makeslice`.  `Map` is embedded twice: `Map` allocates through
  `make`, `MapE` through `makeslice` for an element size given as a parameter.
* Exhaustion of the machine's memory by a request within the limit is not
  modelled.
* `FilterE`, `MapE`, `ReduceE`, `FindIndexE` and `EveryE` are the same functions
  for a function argument whose call may itself panic.
-/

namespace Godash

/-! ## Run-time model -/

/-- The ways a call can stop without returning a value. -/
inductive Fault where
  /-- Go: `panic: runtime error: makeslice: len out of range`. -/
  | makesliceLen
  /-- Go: `panic: runtime error: index out of range`. -/
  | indexRange
  /-- The loop budget of the model ran out; no Go behaviour corresponds to it. -/
  | fuel
  /-- A panic raised inside the function passed as an argument. -/
  | callee
  deriving DecidableEq, Repr

deriving instance DecidableEq for Except

/-- Width of Go's `int` on the modelled platform. -/
def intBits : Nat := 64

/-- Smallest value of `int`. -/
def minInt : Int := -(2 ^ (intBits - 1))

/-- Largest value of `int`. -/
def maxInt : Int := 2 ^ (intBits - 1) - 1

/-- Two's-complement wrap-around of a mathematical integer into `int`. -/
def wrapInt (x : Int) : Int :=
  (x + 2 ^ (intBits - 1)) % 2 ^ intBits - 2 ^ (intBits - 1)

/-- A value that fits Go's `int`. -/
def isInt (x : Int) : Prop := minInt ≤ x ∧ x ≤ maxInt

instance (x : Int) : Decidable (isInt x) := by
  unfold isInt; exact inferInstance

/-- Size in bytes of an `int`. -/
def intBytes : Nat := intBits / 8

/-- The run-time's `maxAlloc`: the largest number of bytes one allocation may
ask for (`1 << 48` on 64-bit Linux). -/
def maxAlloc : Nat := 2 ^ 48

/-- Go's `make([]B, n)` for a run-time length `n` within the allocation limit:
a slice of `n` zero values (`default` stands for the zero value of `B`), a
panic when `n` is negative.  The limit itself is in `makeslice`. -/
def make {B : Type} [Inhabited B] (n : Int) : Except Fault (List B) :=
  if n < 0 then .error .makesliceLen else .ok (List.replicate n.toNat default)

/-- Go's `make([]B, n)` as the run-time function `makeslice` carries it out for
an element type of `size` bytes: a panic (`makeslice: len out of range`) when
`n` is negative or `size * n` bytes exceed `maxAlloc`, otherwise a slice of `n`
zero values. -/
def makeslice {B : Type} [Inhabited B] (size : Nat) (n : Int) : Except Fault (List B) :=
  if n < 0 ∨ (maxAlloc : Int) < (size : Int) * n then .error .makesliceLen
  else .ok (List.replicate n.toNat default)

/-- Go's indexed write `s[i] = v`: a panic when `i` is outside `0 ≤ i < len(s)`. -/
def setIdx {B : Type} (s : List B) (i : Int) (v : B) : Except Fault (List B) :=
  if 0 ≤ i ∧ i < (s.length : Int) then .ok (s.set i.toNat v) else .error .indexRange

/-! ## `Filter` (utils.go, lines 6-14) -/

/-- The `for _, item := range slc` loop of `Filter`; `res` is the slice built so far. -/
def Filter.loop {A : Type} (predicate : A → Bool) : List A → List A → List A
  | [], res => res
  | item :: rest, res =>
    if predicate item then Filter.loop predicate rest (res ++ [item])
    else Filter.loop predicate rest res

/-- `Filter`: `res := make([]A, 0)`, then the loop, then `return res`. -/
def Filter {A : Type} (slc : List A) (predicate : A → Bool) : List A :=
  Filter.loop predicate slc []

/-! ## `Map` (utils.go, lines 18-24) -/

/-- The `for i, item := range slc` loop of `Map`: `res[i] = f(item)`. -/
def Map.loop {A B : Type} (f : A → B) : List A → Nat → List B → Except Fault (List B)
  | [], _, res => .ok res
  | item :: rest, i, res =>
    match setIdx res (i : Int) (f item) with
    | .ok res1 => Map.loop f rest (i + 1) res1
    | .error e => .error e

/-- `Map`: `res := make([]B, len(slc))`, then the loop, then `return res`. -/
def Map {A B : Type} [Inhabited B] (slc : List A) (f : A → B) : Except Fault (List B) :=
  match make (slc.length : Int) with
  | .ok res => Map.loop f slc 0 res
  | .error e => .error e

/-! ## `Reduce` (utils.go, lines 30-36) -/

/-- The `for _, item := range slc` loop of `Reduce`: `acc = f(acc, item)`. -/
def Reduce.loop {A B : Type} (f : B → A → B) : List A → B → B
  | [], acc => acc
  | item :: rest, acc => Reduce.loop f rest (f acc item)

/-- `Reduce`: `acc := start`, then the loop, then `return acc`. -/
def Reduce {A B : Type} (slc : List A) (f : B → A → B) (start : B) : B :=
  Reduce.loop f slc start

/-! ## `FindIndex` (utils.go, lines 40-47) -/

/-- The `for i, item := range slc` loop of `FindIndex`, with `return -1` after it. -/
def FindIndex.loop {A : Type} (predicate : A → Bool) : List A → Nat → Int
  | [], _ => -1
  | item :: rest, i =>
    if predicate item then (i : Int) else FindIndex.loop predicate rest (i + 1)

/-- `FindIndex`: the index of the first match, `-1` when the loop ends. -/
def FindIndex {A : Type} (slc : List A) (predicate : A → Bool) : Int :=
  FindIndex.loop predicate slc 0

/-! ## `Every` (utils.go, lines 50-57) -/

/-- `Every`: `return false` at the first item with `!predicate(item)`,
`return true` after the loop. -/
def Every {A : Type} : List A → (A → Bool) → Bool
  | [], _ => true
  | item :: rest, predicate =>
    if !predicate item then false else Every rest predicate

/-! ## `Range` (utils.go, lines 60-69) -/

/-- The loop `for i := 0; i < len(rng); i++ { rng[i] = i + start }` of `Range`.
The first argument bounds the number of iterations. -/
def Range.loop (start : Int) : Nat → Int → List Int → Except Fault (List Int)
  | 0, _, _ => .error .fuel
  | fuel + 1, i, rng =>
    if i < (rng.length : Int) then
      match setIdx rng i (wrapInt (i + start)) with
      | .ok rng1 => Range.loop start fuel (wrapInt (i + 1)) rng1
      | .error e => .error e
    else .ok rng

/-- `Range`: the guard `if start <= end { return make([]int, 0) }`, then
`rng := make([]int, end - start)`, the loop, and `return rng`. -/
def Range (start end_ : Int) : Except Fault (List Int) :=
  if start ≤ end_ then makeslice intBytes 0
  else
    match makeslice intBytes (wrapInt (end_ - start)) with
    | .ok rng => Range.loop start (rng.length + 1) 0 rng
    | .error e => .error e

/-! ## Functions used in the concrete scenarios -/

/-- The predicate `isEven` of the scenarios. -/
def isEven (x : Int) : Bool := x % 2 == 0

/-- The transform `double` of the scenarios. -/
def double (x : Int) : Int := 2 * x

/-- The combiner `sum` of the scenarios. -/
def sum (acc x : Int) : Int := acc + x

/-! ## Predicates with side effects

`FindIndex` and `Every` call `predicate` as an ordinary Go function, which may
read and write state of its own.  Such a predicate is a function
`A → σ → Bool × σ`; the two functions are embedded a second time, threading
that state through the calls in the order the loop makes them. -/

/-- The loop of `FindIndex` for a predicate with side effects. -/
def FindIndexSt.loop {A σ : Type} (predicate : A → σ → Bool × σ) :
    List A → Nat → σ → Int × σ
  | [], _, s => (-1, s)
  | item :: rest, i, s =>
    match predicate item s with
    | (true, s1) => ((i : Int), s1)
    | (false, s1) => FindIndexSt.loop predicate rest (i + 1) s1

/-- `FindIndex` for a predicate with side effects: the value returned and the
state the calls leave behind. -/
def FindIndexSt {A σ : Type} (slc : List A) (predicate : A → σ → Bool × σ) (s : σ) :
    Int × σ :=
  FindIndexSt.loop predicate slc 0 s

/-- `Every` for a predicate with side effects. -/
def EverySt {A σ : Type} : List A → (A → σ → Bool × σ) → σ → Bool × σ
  | [], _, s => (true, s)
  | item :: rest, predicate, s =>
    match predicate item s with
    | (b, s1) => if !b then (false, s1) else EverySt rest predicate s1

/-- A pure predicate seen as one with (unused) side effects. -/
def pureSt {A σ : Type} (P : A → Bool) : A → σ → Bool × σ :=
  fun a s => (P a, s)

/-- The predicate `predicate` with a call log added to its state: every call
appends the argument it was given and the answer it gave. -/
def logged {A σ : Type} (predicate : A → σ → Bool × σ) :
    A → σ × List (A × Bool) → Bool × (σ × List (A × Bool)) :=
  fun a st => ((predicate a st.1).1, ((predicate a st.1).2, st.2 ++ [(a, (predicate a st.1).1)]))

/-! ## Function arguments that may panic

A function passed to one of the five generic helpers is an ordinary Go
function: a call of it may panic, and the panic ends the helper's call.  Such
an argument returns an `Except Fault`; the helpers are embedded once more for
it, with the same loops.  `MapE` also takes the size in bytes of the element
type `B`, which the allocation of `res` depends on. -/

/-- The loop of `Filter` for a predicate that may panic. -/
def FilterE.loop {A : Type} (predicate : A → Except Fault Bool) :
    List A → List A → Except Fault (List A)
  | [], res => .ok res
  | item :: rest, res =>
    match predicate item with
    | .ok true => FilterE.loop predicate rest (res ++ [item])
    | .ok false => FilterE.loop predicate rest res
    | .error e => .error e

/-- `Filter` for a predicate that may panic. -/
def FilterE {A : Type} (slc : List A) (predicate : A → Except Fault Bool) :
    Except Fault (List A) :=
  FilterE.loop predicate slc []

/-- The loop of `Map` for a transform that may panic. -/
def MapE.loop {A B : Type} (f : A → Except Fault B) :
    List A → Nat → List B → Except Fault (List B)
  | [], _, res => .ok res
  | item :: rest, i, res =>
    match f item with
    | .ok v =>
      match setIdx res (i : Int) v with
      | .ok res1 => MapE.loop f rest (i + 1) res1
      | .error e => .error e
    | .error e => .error e

/-- `Map` for an element type `B` of `size` bytes and a transform that may
panic: `res := make([]B, len(slc))` goes through `makeslice`. -/
def MapE {A B : Type} [Inhabited B] (size : Nat) (slc : List A) (f : A → Except Fault B) :
    Except Fault (List B) :=
  match makeslice size (slc.length : Int) with
  | .ok res => MapE.loop f slc 0 res
  | .error e => .error e

/-- The loop of `Reduce` for a combiner that may panic. -/
def ReduceE.loop {A B : Type} (f : B → A → Except Fault B) : List A → B → Except Fault B
  | [], acc => .ok acc
  | item :: rest, acc =>
    match f acc item with
    | .ok acc1 => ReduceE.loop f rest acc1
    | .error e => .error e

/-- `Reduce` for a combiner that may panic. -/
def ReduceE {A B : Type} (slc : List A) (f : B → A → Except Fault B) (start : B) :
    Except Fault B :=
  ReduceE.loop f slc start

/-- The loop of `FindIndex` for a predicate that may panic. -/
def FindIndexE.loop {A : Type} (predicate : A → Except Fault Bool) :
    List A → Nat → Except Fault Int
  | [], _ => .ok (-1)
  | item :: rest, i =>
    match predicate item with
    | .ok true => .ok (i : Int)
    | .ok false => FindIndexE.loop predicate rest (i + 1)
    | .error e => .error e

/-- `FindIndex` for a predicate that may panic. -/
def FindIndexE {A : Type} (slc : List A) (predicate : A → Except Fault Bool) :
    Except Fault Int :=
  FindIndexE.loop predicate slc 0

/-- `Every` for a predicate that may panic. -/
def EveryE {A : Type} : List A → (A → Except Fault Bool) → Except Fault Bool
  | [], _ => .ok true
  | item :: rest, predicate =>
    match predicate item with
    | .ok b => if !b then .ok false else EveryE rest predicate
    | .error e => .error e

/-- The value a call returned, `d` when it panicked. -/
def valueOr {α : Type} (d : α) : Except Fault α → α
  | .ok v => v
  | .error _ => d

/-! ## Loop invariants -/

theorem Filter_loop_eq {A : Type} (predicate : A → Bool) (slc res : List A) :
    Filter.loop predicate slc res = res ++ slc.filter predicate := by
  induction slc generalizing res with
  | nil => simp [Filter.loop]
  | cons item rest ih =>
    by_cases h : predicate item = true
    · simp [Filter.loop, h, ih]
    · simp [Filter.loop, h, ih]

theorem Filter_eq_filter {A : Type} (slc : List A) (predicate : A → Bool) :
    Filter slc predicate = slc.filter predicate := by
  simp [Filter, Filter_loop_eq]

theorem Reduce_loop_eq {A B : Type} (f : B → A → B) (slc : List A) (acc : B) :
    Reduce.loop f slc acc = List.foldl f acc slc := by
  induction slc generalizing acc with
  | nil => rfl
  | cons item rest ih => simp [Reduce.loop, ih]

theorem Map_loop_eq {A B : Type} (f : A → B) (slc : List A) (i : Nat) (res : List B)
    (h : i + slc.length ≤ res.length) :
    Map.loop f slc i res
      = .ok (res.take i ++ slc.map f ++ res.drop (i + slc.length)) := by
  induction slc generalizing i res with
  | nil => simp [Map.loop]
  | cons item rest ih =>
    simp only [List.length_cons] at h
    have hi : i < res.length := by omega
    have hs : setIdx res (i : Int) (f item) = .ok (res.set i (f item)) := by
      simp [setIdx, hi]
    rw [Map.loop, hs]
    simp only
    rw [ih (i + 1) (res.set i (f item)) (by simp; omega)]
    congr 1
    simp [List.take_succ, hi]
    have e : i + 1 + rest.length = i + (rest.length + 1) := by omega
    rw [e, List.drop_set_of_lt _ _ (by omega)]
    have t : List.take i (res.set i (f item)) = List.take i res := by
      rw [List.set_eq_take_append_cons_drop, if_pos hi]
      exact List.take_left' (by simp; omega)
    rw [t]

theorem Map_eq_map {A B : Type} [Inhabited B] (slc : List A) (f : A → B) :
    Map slc f = .ok (slc.map f) := by
  have hm : (make (slc.length : Int) : Except Fault (List B))
      = .ok (List.replicate slc.length default) := by
    simp [make]
  rw [Map, hm]
  simp only
  rw [Map_loop_eq f slc 0 _ (by simp)]
  simp

theorem FindIndex_loop_spec {A : Type} (predicate : A → Bool) (slc : List A) (k : Nat) :
    (FindIndex.loop predicate slc k = -1 ↔ ∀ x ∈ slc, predicate x = false)
    ∧ (FindIndex.loop predicate slc k ≠ -1 →
        ∃ i : Nat, FindIndex.loop predicate slc k = ((k + i : Nat) : Int)
          ∧ ∃ h : i < slc.length, predicate slc[i] = true
            ∧ ∀ j, j < i → ∀ x, slc[j]? = some x → predicate x = false) := by
  induction slc generalizing k with
  | nil => simp [FindIndex.loop]
  | cons item rest ih =>
    by_cases hp : predicate item = true
    · have hk : ((k : Nat) : Int) ≠ -1 := by omega
      simp only [FindIndex.loop, hp, if_true]
      refine ⟨?_, fun _ => ⟨0, by simp, by simp, by simp [hp], by simp⟩⟩
      constructor
      · intro h; exact absurd h hk
      · intro h; have := h item (by simp); simp [hp] at this
    · have hp' : predicate item = false := by simpa using hp
      obtain ⟨ih1, ih2⟩ := ih (k + 1)
      simp only [FindIndex.loop, hp', Bool.false_eq_true, if_false]
      refine ⟨?_, ?_⟩
      · rw [ih1]; simp [hp']
      · intro hne
        obtain ⟨i, hi, hlt, hpi, hmin⟩ := ih2 hne
        refine ⟨i + 1, ?_, by simp [hlt], by simpa using hpi, ?_⟩
        · rw [hi]; push_cast; ring
        · intro j hj x hx
          cases j with
          | zero => simp at hx; rw [← hx]; exact hp'
          | succ j => exact hmin j (by omega) x (by simpa using hx)

theorem Every_iff {A : Type} (slc : List A) (predicate : A → Bool) :
    Every slc predicate = true ↔ ∀ x ∈ slc, predicate x = true := by
  induction slc with
  | nil => simp [Every]
  | cons item rest ih =>
    by_cases hp : predicate item = true
    · simp [Every, hp, ih]
    · simp [Every, hp]

theorem Reduce_eq_foldl {A B : Type} (slc : List A) (f : B → A → B) (start : B) :
    Reduce slc f start = List.foldl f start slc :=
  Reduce_loop_eq f slc start

theorem FindIndex_loop_head {A : Type} (predicate : A → Bool) (slc : List A) (k i : Nat)
    (h : FindIndex.loop predicate slc k = ((k + i : Nat) : Int)) :
    slc[i]? = (slc.filter predicate).head? ∧ i < slc.length := by
  induction slc generalizing k i with
  | nil => simp [FindIndex.loop] at h; omega
  | cons item rest ih =>
    by_cases hp : predicate item = true
    · simp only [FindIndex.loop, hp, if_true] at h
      have hi : i = 0 := by omega
      subst hi
      simp [List.filter_cons, hp]
    · have hp' : predicate item = false := by simpa using hp
      simp only [FindIndex.loop, hp', Bool.false_eq_true, if_false] at h
      have hne : FindIndex.loop predicate rest (k + 1) ≠ -1 := by rw [h]; omega
      obtain ⟨j, hj, _⟩ := (FindIndex_loop_spec predicate rest (k + 1)).2 hne
      have hij : i = j + 1 := by rw [h] at hj; omega
      subst hij
      obtain ⟨h1, h2⟩ := ih (k + 1) j hj
      refine ⟨?_, by simp [h2]⟩
      rw [List.filter_cons_of_neg (by simp [hp']), List.getElem?_cons_succ]
      exact h1

/-! ## `Range`: what the code does on every input -/

theorem wrapInt_of_isInt (x : Int) (h1 : minInt ≤ x) (h2 : x ≤ maxInt) : wrapInt x = x := by
  simp only [wrapInt, minInt, maxInt, intBits] at *
  norm_num at *
  omega

theorem Range_loop_eq (start : Int) (fuel i : Nat) (rng : List Int)
    (hi : i ≤ rng.length) (hlen : (rng.length : Int) ≤ maxInt) (hf : rng.length - i < fuel) :
    Range.loop start fuel (i : Int) rng
      = .ok (rng.take i
          ++ (List.range' i (rng.length - i)).map (fun (j : Nat) => wrapInt ((j : Int) + start))) := by
  induction fuel generalizing i rng with
  | zero => omega
  | succ fuel ih =>
    by_cases hlt : i < rng.length
    · have hs : setIdx rng (i : Int) (wrapInt ((i : Int) + start))
          = .ok (rng.set i (wrapInt ((i : Int) + start))) := by
        simp [setIdx, hlt]
      have hw : wrapInt ((i : Int) + 1) = ((i + 1 : Nat) : Int) := by
        rw [wrapInt_of_isInt]
        · push_cast; rfl
        · simp only [minInt, intBits]; norm_num; omega
        · omega
      have hc : ((i : Int) < (rng.length : Int)) := by exact_mod_cast hlt
      rw [Range.loop, if_pos hc, hs]
      simp only
      rw [hw, ih (i + 1) _ (by simp; omega) (by simpa using hlen) (by simp; omega)]
      rw [List.length_set]
      have t : List.take (i + 1) (rng.set i (wrapInt ((i : Int) + start)))
          = List.take i rng ++ [wrapInt ((i : Int) + start)] := by
        rw [List.set_eq_take_append_cons_drop, if_pos hlt, List.take_append_eq_append_take]
        have hm : min i rng.length = i := by omega
        have h1 : i + 1 - i = 1 := by omega
        simp [hm, h1, List.take_take]
      have r : List.range' i (rng.length - i)
          = i :: List.range' (i + 1) (rng.length - (i + 1)) := by
        have : rng.length - i = (rng.length - (i + 1)) + 1 := by omega
        rw [this, List.range'_succ]
      rw [t, r]
      simp
    · have he : i = rng.length := by omega
      have hc : ¬ ((i : Int) < (rng.length : Int)) := by omega
      rw [Range.loop, if_neg hc]
      subst he
      simp

theorem make_of_nonneg {B : Type} [Inhabited B] (n : Int) (h : 0 ≤ n) :
    (make n : Except Fault (List B)) = .ok (List.replicate n.toNat default) := by
  simp [make, h]

theorem makeslice_of_fits {B : Type} [Inhabited B] (size : Nat) (n : Int) (h : 0 ≤ n)
    (hfit : (size : Int) * n ≤ (maxAlloc : Int)) :
    (makeslice size n : Except Fault (List B)) = make n := by
  have h1 : ¬ (n < 0 ∨ (maxAlloc : Int) < (size : Int) * n) := by omega
  rw [makeslice, if_neg h1, make_of_nonneg n h]

theorem makeslice_of_neg {B : Type} [Inhabited B] (size : Nat) (n : Int) (h : n < 0) :
    (makeslice size n : Except Fault (List B)) = .error .makesliceLen := by
  rw [makeslice, if_pos (Or.inl h)]

theorem makeslice_of_large {B : Type} [Inhabited B] (size : Nat) (n : Int)
    (h : (maxAlloc : Int) < (size : Int) * n) :
    (makeslice size n : Except Fault (List B)) = .error .makesliceLen := by
  rw [makeslice, if_pos (Or.inr h)]

theorem Range_of_le (start end_ : Int) (h : start ≤ end_) : Range start end_ = .ok [] := by
  simp [Range, h, makeslice]

theorem Range_of_gt (start end_ : Int) (h : end_ < start) (hno : minInt ≤ end_ - start) :
    Range start end_ = .error .makesliceLen := by
  have hw : wrapInt (end_ - start) = end_ - start :=
    wrapInt_of_isInt _ hno (by simp only [maxInt, intBits]; norm_num; omega)
  have hn : ¬ start ≤ end_ := by omega
  rw [Range, if_neg hn, hw, makeslice_of_neg _ _ (by omega)]

theorem Range_of_large (start end_ : Int) (h : end_ < start)
    (hbig : (maxAlloc : Int) < (intBytes : Int) * wrapInt (end_ - start)) :
    Range start end_ = .error .makesliceLen := by
  have hn : ¬ start ≤ end_ := by omega
  rw [Range, if_neg hn, makeslice_of_large _ _ hbig]

/-! ## Calls made to a predicate with side effects -/

theorem FindIndexSt_loop_pure {A σ : Type} (Q : A → Bool) (slc : List A) (k : Nat) (s : σ) :
    FindIndexSt.loop (pureSt Q) slc k s = (FindIndex.loop Q slc k, s) := by
  induction slc generalizing k with
  | nil => rfl
  | cons item rest ih =>
    cases hq : Q item
    · simp [FindIndexSt.loop, FindIndex.loop, pureSt, hq, ih]
    · simp [FindIndexSt.loop, FindIndex.loop, pureSt, hq]

theorem EverySt_pure {A σ : Type} (Q : A → Bool) (slc : List A) (s : σ) :
    EverySt slc (pureSt Q) s = (Every slc Q, s) := by
  induction slc with
  | nil => rfl
  | cons item rest ih =>
    cases hq : Q item
    · simp [EverySt, Every, pureSt, hq]
    · simp [EverySt, Every, pureSt, hq, ih]

theorem FindIndexSt_loop_logged {A σ : Type} (P : A → σ → Bool × σ) (slc : List A)
    (k : Nat) (s : σ) (l : List (A × Bool)) :
    ∃ calls : List (A × Bool),
      FindIndexSt.loop (logged P) slc k (s, l)
        = ((FindIndexSt.loop P slc k s).1, ((FindIndexSt.loop P slc k s).2, l ++ calls))
      ∧ (((FindIndexSt.loop P slc k s).1 = -1 ∧ calls.map Prod.fst = slc
            ∧ calls.map Prod.snd = List.replicate slc.length false)
        ∨ ∃ i : Nat, i < slc.length ∧ (FindIndexSt.loop P slc k s).1 = ((k + i : Nat) : Int)
            ∧ calls.map Prod.fst = slc.take (i + 1)
            ∧ calls.map Prod.snd = List.replicate i false ++ [true]) := by
  induction slc generalizing k s l with
  | nil => exact ⟨[], by simp [FindIndexSt.loop], Or.inl ⟨rfl, rfl, rfl⟩⟩
  | cons item rest ih =>
    rcases hp : P item s with ⟨b, s1⟩
    cases b
    · obtain ⟨calls, h1, h2⟩ := ih (k + 1) s1 (l ++ [(item, false)])
      refine ⟨(item, false) :: calls, ?_, ?_⟩
      · simp [FindIndexSt.loop, logged, hp, h1]
      · simp only [FindIndexSt.loop, hp]
        rcases h2 with ⟨a1, a2, a3⟩ | ⟨i, b1, b2, b3, b4⟩
        · exact Or.inl ⟨a1, by simp [a2], by simp [a3, List.replicate_succ]⟩
        · refine Or.inr ⟨i + 1, by simp [b1], ?_, by simp [b3], by simp [b4, List.replicate_succ]⟩
          rw [b2]; push_cast; ring
    · refine ⟨[(item, true)], ?_, Or.inr ⟨0, by simp, ?_, by simp, by simp⟩⟩
      · simp [FindIndexSt.loop, logged, hp]
      · simp [FindIndexSt.loop, hp]

theorem EverySt_logged {A σ : Type} (P : A → σ → Bool × σ) (slc : List A)
    (s : σ) (l : List (A × Bool)) :
    ∃ calls : List (A × Bool),
      EverySt slc (logged P) (s, l)
        = ((EverySt slc P s).1, ((EverySt slc P s).2, l ++ calls))
      ∧ (((EverySt slc P s).1 = true ∧ calls.map Prod.fst = slc
            ∧ calls.map Prod.snd = List.replicate slc.length true)
        ∨ ∃ i : Nat, i < slc.length ∧ (EverySt slc P s).1 = false
            ∧ calls.map Prod.fst = slc.take (i + 1)
            ∧ calls.map Prod.snd = List.replicate i true ++ [false]) := by
  induction slc generalizing s l with
  | nil => exact ⟨[], by simp [EverySt], Or.inl ⟨rfl, rfl, rfl⟩⟩
  | cons item rest ih =>
    rcases hp : P item s with ⟨b, s1⟩
    cases b
    · refine ⟨[(item, false)], ?_, Or.inr ⟨0, by simp, ?_, by simp, by simp⟩⟩
      · simp [EverySt, logged, hp]
      · simp [EverySt, hp]
    · obtain ⟨calls, h1, h2⟩ := ih s1 (l ++ [(item, true)])
      refine ⟨(item, true) :: calls, ?_, ?_⟩
      · simp [EverySt, logged, hp, h1]
      · simp only [EverySt, hp]
        rcases h2 with ⟨a1, a2, a3⟩ | ⟨i, b1, b2, b3, b4⟩
        · exact Or.inl ⟨by simpa using a1, by simp [a2], by simp [a3, List.replicate_succ]⟩
        · exact Or.inr ⟨i + 1, by simp [b1], by simpa using b2, by simp [b3],
            by simp [b4, List.replicate_succ]⟩

/-! ## Function arguments that may panic: when every call returns -/

theorem FilterE_loop_ok {A : Type} (P : A → Except Fault Bool) (Q : A → Bool)
    (slc res : List A) (h : ∀ x ∈ slc, P x = .ok (Q x)) :
    FilterE.loop P slc res = .ok (Filter.loop Q slc res) := by
  induction slc generalizing res with
  | nil => rfl
  | cons item rest ih =>
    have hi : P item = .ok (Q item) := h item (by simp)
    have hr : ∀ x ∈ rest, P x = .ok (Q x) := fun x hx => h x (by simp [hx])
    cases hq : Q item
    · rw [hq] at hi; simp [FilterE.loop, Filter.loop, hi, hq, ih _ hr]
    · rw [hq] at hi; simp [FilterE.loop, Filter.loop, hi, hq, ih _ hr]

theorem FindIndexE_loop_ok {A : Type} (P : A → Except Fault Bool) (Q : A → Bool)
    (slc : List A) (k : Nat) (h : ∀ x ∈ slc, P x = .ok (Q x)) :
    FindIndexE.loop P slc k = .ok (FindIndex.loop Q slc k) := by
  induction slc generalizing k with
  | nil => rfl
  | cons item rest ih =>
    have hi : P item = .ok (Q item) := h item (by simp)
    have hr : ∀ x ∈ rest, P x = .ok (Q x) := fun x hx => h x (by simp [hx])
    cases hq : Q item
    · rw [hq] at hi; simp [FindIndexE.loop, FindIndex.loop, hi, hq, ih _ hr]
    · rw [hq] at hi; simp [FindIndexE.loop, FindIndex.loop, hi, hq]

theorem EveryE_ok {A : Type} (P : A → Except Fault Bool) (Q : A → Bool)
    (slc : List A) (h : ∀ x ∈ slc, P x = .ok (Q x)) :
    EveryE slc P = .ok (Every slc Q) := by
  induction slc with
  | nil => rfl
  | cons item rest ih =>
    have hi : P item = .ok (Q item) := h item (by simp)
    have hr : ∀ x ∈ rest, P x = .ok (Q x) := fun x hx => h x (by simp [hx])
    cases hq : Q item
    · rw [hq] at hi; simp [EveryE, Every, hi, hq]
    · rw [hq] at hi; simp [EveryE, Every, hi, hq, ih hr]

theorem ReduceE_loop_ok {A B : Type} (G : B → A → Except Fault B) (G0 : B → A → B)
    (slc : List A) (acc : B) (h : ∀ a x, G a x = .ok (G0 a x)) :
    ReduceE.loop G slc acc = .ok (Reduce.loop G0 slc acc) := by
  induction slc generalizing acc with
  | nil => rfl
  | cons item rest ih => simp [ReduceE.loop, Reduce.loop, h, ih]

theorem MapE_loop_ok {A B : Type} (F : A → Except Fault B) (F0 : A → B)
    (slc : List A) (i : Nat) (res : List B) (h : ∀ x ∈ slc, F x = .ok (F0 x)) :
    MapE.loop F slc i res = Map.loop F0 slc i res := by
  induction slc generalizing i res with
  | nil => rfl
  | cons item rest ih =>
    have hi : F item = .ok (F0 item) := h item (by simp)
    have hr : ∀ x ∈ rest, F x = .ok (F0 x) := fun x hx => h x (by simp [hx])
    rw [MapE.loop, Map.loop, hi]
    simp only
    cases setIdx res (i : Int) (F0 item) with
    | ok res1 => exact ih (i + 1) res1 hr
    | error e => rfl

theorem MapE_ok {A B : Type} [Inhabited B] (size : Nat) (slc : List A)
    (F : A → Except Fault B) (F0 : A → B) (h : ∀ x ∈ slc, F x = .ok (F0 x))
    (hfit : size * slc.length ≤ maxAlloc) :
    MapE size slc F = Map slc F0 := by
  have hm : (makeslice size (slc.length : Int) : Except Fault (List B))
      = make (slc.length : Int) :=
    makeslice_of_fits size _ (by omega) (by exact_mod_cast hfit)
  rw [MapE, Map, hm]
  cases (make (slc.length : Int) : Except Fault (List B)) with
  | ok res => exact MapE_loop_ok F F0 slc 0 res h
  | error e => rfl

theorem MapE_of_large {A B : Type} [Inhabited B] (size : Nat) (slc : List A)
    (F : A → Except Fault B) (hbig : maxAlloc < size * slc.length) :
    MapE size slc F = .error .makesliceLen := by
  have hm : (makeslice size (slc.length : Int) : Except Fault (List B))
      = .error .makesliceLen :=
    makeslice_of_large size _ (by exact_mod_cast hbig)
  rw [MapE, hm]

/-! ## Claims -/

/-- C1: `Filter(S, P)` equals the reference list filter of `S` by `P` (the
elements of `S` satisfying `P`, with multiplicity, in their original order);
`Filter` of the empty slice is empty; `Filter([1,2,3,4,5,6], isEven) = [2,4,6]`. -/
theorem Filter_spec {A : Type} (S : List A) (P : A → Bool) :
    Filter S P = List.filter P S
    ∧ Filter ([] : List A) P = []
    ∧ Filter [1, 2, 3, 4, 5, 6] isEven = [2, 4, 6] := by
  refine ⟨Filter_eq_filter S P, rfl, by decide⟩

/-- C2: `Map(S, F)` returns a slice of the same length as `S` whose element at
every index `i < len(S)` is `F(S[i])`; `Map([1,2,3], double) = [2,4,6]`. -/
theorem Map_spec {A B : Type} [Inhabited B] (S : List A) (F : A → B) :
    (∃ r : List B, Map S F = .ok r ∧ r.length = S.length
      ∧ (∀ i (hS : i < S.length) (hr : i < r.length), r[i] = F S[i])
      ∧ ∀ i : Nat, r[i]? = (S[i]?).map F)
    ∧ Map [1, 2, 3] double = .ok [2, 4, 6] := by
  refine ⟨⟨S.map F, Map_eq_map S F, by simp, ?_, ?_⟩, by decide⟩
  · intro i hS hr; simp
  · intro i; simp

/-- C3: `Reduce(S, F, start)` is the sequential left fold
`F(...F(F(start, s_0), s_1)..., s_(n-1))`, for any `F` (none of associativity
or commutativity is used): it is `start` on the empty slice and one more
element at the end applies `F` once more to the result so far;
`Reduce([1,2,3,4], sum, 0) = 10`, and with subtraction, which is neither
associative nor commutative, `Reduce([1,2,3], -, 10) = ((10-1)-2)-3 = 4`. -/
theorem Reduce_spec {A B : Type} (S : List A) (F : B → A → B) (start : B) :
    Reduce S F start = List.foldl F start S
    ∧ Reduce ([] : List A) F start = start
    ∧ (∀ x : A, Reduce (S ++ [x]) F start = F (Reduce S F start) x)
    ∧ Reduce [1, 2, 3, 4] sum 0 = 10
    ∧ Reduce [1, 2, 3] (fun (acc x : Int) => acc - x) 10 = 4 := by
  refine ⟨Reduce_loop_eq F S start, rfl, ?_, by decide, by decide⟩
  intro x
  simp [Reduce, Reduce_loop_eq]

/-- C4: `FindIndex(S, P) = -1` exactly when no element of `S` satisfies `P`
(so also on the empty slice); otherwise `FindIndex(S, P)` is an index
`i < len(S)` with `P(S[i])` true and `P(S[j])` false for every `j < i`. -/
theorem FindIndex_spec {A : Type} (S : List A) (P : A → Bool) :
    (FindIndex S P = -1 ↔ ∀ x ∈ S, P x = false)
    ∧ FindIndex ([] : List A) P = -1
    ∧ (FindIndex S P ≠ -1 →
        ∃ i : Nat, FindIndex S P = (i : Int)
          ∧ ∃ h : i < S.length, P S[i] = true
            ∧ ∀ j, j < i → ∀ x, S[j]? = some x → P x = false) := by
  obtain ⟨h1, h2⟩ := FindIndex_loop_spec P S 0
  refine ⟨h1, rfl, ?_⟩
  intro hne
  obtain ⟨i, hi, hrest⟩ := h2 hne
  exact ⟨i, by simpa [FindIndex] using hi, hrest⟩

/-- C5: `Every(S, P)` is true exactly when `P` holds for every element of `S`;
`Every([], P)` is true for any `P`. -/
theorem Every_spec {A : Type} (S : List A) (P : A → Bool) :
    (Every S P = true ↔ ∀ x ∈ S, P x = true)
    ∧ Every ([] : List A) P = true :=
  ⟨Every_iff S P, rfl⟩

/-- C6 (the code departs from it): for `start < end` the code returns the
empty slice, not `[start, ..., end-1]`; `Range(0, 5)` is `[]`, not
`[0,1,2,3,4]`. -/
theorem Range_ascending_is_empty :
    Range 0 5 = .ok []
    ∧ Range 0 5 ≠ .ok [0, 1, 2, 3, 4]
    ∧ ∀ start end_ : Int, start < end_ → Range start end_ = .ok [] := by
  refine ⟨by decide, by decide, ?_⟩
  intro start end_ h
  exact Range_of_le start end_ (le_of_lt h)

/-- C7 (the code departs from it): `Range(5, 2)` does not return: it asks
`make` for a slice of length `-3` and panics; and `Range(maxInt, minInt)`,
whose length `end - start` wraps around to `1`, returns the non-empty
`[maxInt]`.  Only the case `end = start` returns the empty slice. -/
theorem Range_descending_fails :
    Range 5 2 = .error .makesliceLen
    ∧ Range maxInt minInt = .ok [maxInt]
    ∧ Range 3 3 = .ok []
    ∧ ∀ start : Int, Range start start = .ok [] := by
  refine ⟨by decide, by decide, by decide, ?_⟩
  intro start
  exact Range_of_le start start le_rfl

/-- C8: `Filter(S, P)` is a subsequence of `S`; every element of it satisfies
`P`; every element of `S` that does not occur in it fails `P`. -/
theorem Filter_sublist {A : Type} (S : List A) (P : A → Bool) :
    List.Sublist (Filter S P) S
    ∧ (∀ x ∈ Filter S P, P x = true)
    ∧ (∀ x ∈ S, x ∉ Filter S P → P x = false) := by
  rw [Filter_eq_filter]
  refine ⟨List.filter_sublist S, ?_, ?_⟩
  · intro x hx; exact (List.mem_filter.mp hx).2
  · intro x hx hn
    by_contra hp
    exact hn (List.mem_filter.mpr ⟨hx, by simpa using hp⟩)

/-- C9: `len(Filter(S, P)) + len(Filter(S, not P)) = len(S)`. -/
theorem Filter_length_partition {A : Type} (S : List A) (P : A → Bool) :
    (Filter S P).length + (Filter S (fun x => !P x)).length = S.length := by
  rw [Filter_eq_filter, Filter_eq_filter]
  induction S with
  | nil => rfl
  | cons item rest ih =>
    by_cases hp : P item = true
    · simp [List.filter_cons, hp]; omega
    · simp [List.filter_cons, hp]; omega

/-- C10: `Every(S, P)` is true exactly when `FindIndex(S, not P) = -1`; as
Booleans, `Every(S, P) == (FindIndex(S, not P) == -1)`. -/
theorem Every_eq_FindIndex_not {A : Type} (S : List A) (P : A → Bool) :
    (Every S P = true ↔ FindIndex S (fun x => !P x) = -1)
    ∧ Every S P = decide (FindIndex S (fun x => !P x) = -1) := by
  have h : Every S P = true ↔ FindIndex S (fun x => !P x) = -1 := by
    rw [Every_iff, FindIndex, (FindIndex_loop_spec (fun x => !P x) S 0).1]
    simp
  refine ⟨h, ?_⟩
  by_cases he : Every S P = true
  · rw [he]; exact (decide_eq_true (h.mp he)).symm
  · have hf : Every S P = false := by simpa using he
    rw [hf]; exact (decide_eq_false (fun hc => he (h.mpr hc))).symm

/-- C11: `Map(S, identity)` returns a slice equal to `S`, element for element. -/
theorem Map_identity {A : Type} [Inhabited A] (S : List A) :
    Map S (fun x => x) = .ok S
    ∧ ∃ r : List A, Map S (fun x => x) = .ok r ∧ r.length = S.length
        ∧ ∀ i : Nat, r[i]? = S[i]? := by
  have h : Map S (fun x => x) = .ok S := by
    rw [Map_eq_map]; simp
  exact ⟨h, S, h, rfl, fun _ => rfl⟩

/-- C12: `Reduce(S, F, [])` with `F(acc, x) = append(acc, x)` and the empty
slice as start returns a slice equal to `S`, element for element. -/
theorem Reduce_append_reconstructs {A : Type} (S : List A) :
    Reduce S (fun (acc : List A) (x : A) => acc ++ [x]) [] = S := by
  have h : ∀ (T acc : List A),
      Reduce.loop (fun (acc : List A) (x : A) => acc ++ [x]) T acc = acc ++ T := by
    intro T
    induction T with
    | nil => intro acc; simp [Reduce.loop]
    | cons item rest ih => intro acc; simp [Reduce.loop, ih]
  simpa [Reduce] using h S []

/-- C17: `Reduce(S ++ T, F, a) = Reduce(T, F, Reduce(S, F, a))`. -/
theorem Reduce_append {A B : Type} (S T : List A) (F : B → A → B) (a : B) :
    Reduce (S ++ T) F a = Reduce T F (Reduce S F a) := by
  simp [Reduce_eq_foldl]

/-- C18: `FindIndex(S, P) = -1` exactly when `Filter(S, P)` is empty, and when
`FindIndex(S, P) = i >= 0` then `i < len(S)` and `S[i]` is the first element
of `Filter(S, P)`. -/
theorem FindIndex_agrees_Filter {A : Type} (S : List A) (P : A → Bool) :
    (FindIndex S P = -1 ↔ Filter S P = [])
    ∧ ∀ i : Nat, FindIndex S P = (i : Int) →
        ∃ x, S[i]? = some x ∧ (Filter S P).head? = some x := by
  refine ⟨?_, ?_⟩
  · rw [FindIndex, (FindIndex_loop_spec P S 0).1, Filter_eq_filter]
    simp
  · intro i hi
    have h := FindIndex_loop_head P S 0 i (by simpa [FindIndex] using hi)
    rw [Filter_eq_filter, ← h.1]
    exact ⟨S[i], by simp [h.2], by simp [h.2]⟩

/-- C19: `Every(S, P)` is true exactly when `Filter(S, P)` equals `S` element
for element, and that is the case exactly when `len(Filter(S, P)) = len(S)`. -/
theorem Every_agrees_Filter {A : Type} (S : List A) (P : A → Bool) :
    (Every S P = true ↔ Filter S P = S)
    ∧ (Every S P = true ↔ (Filter S P).length = S.length) := by
  rw [Every_iff, Filter_eq_filter]
  exact ⟨List.filter_eq_self.symm, List.filter_length_eq_length.symm⟩

/-- C20: `Map(Map(S, F), G) = Map(S, G after F)`: the inner call returns a
slice, and mapping `G` over it gives what mapping the composition over `S` gives. -/
theorem Map_fusion {A B C : Type} [Inhabited B] [Inhabited C]
    (S : List A) (F : A → B) (G : B → C) :
    ∃ r : List B, Map S F = .ok r
      ∧ Map r G = Map S (fun x => G (F x))
      ∧ Map r G = .ok (S.map (fun x => G (F x))) := by
  refine ⟨S.map F, Map_eq_map S F, ?_, ?_⟩
  · rw [Map_eq_map, Map_eq_map]; simp
  · rw [Map_eq_map]; simp

/-- C13 (as the code has it): run with function arguments that may themselves
panic, `Filter`, `Reduce`, `FindIndex` and `Every` return a value on every
slice, the empty one included, whenever every call of the argument returns;
they then return what the embeddings for pure arguments compute.  `Map` returns
a value under the same condition provided `len(S)` elements of `B` fit the
run-time's allocation limit, and every write `res[i]` is then within the bounds
of the result slice of length `len(S)`; when they do not fit,
`make([]B, len(S))` panics and `Map` returns nothing.  A panic of the argument
is the helper's panic: `Every` over `[1, 2]` with a predicate that panics on `2`
panics, and `Map([1,2,3], double)` into `[]int` returns `[2,4,6]`. -/
theorem total_within_allocation {A B : Type} [Inhabited B] (S : List A)
    (P : A → Except Fault Bool) (F : A → Except Fault B) (G : B → A → Except Fault B)
    (start : B) (size : Nat) :
    ((∀ x ∈ S, ∃ b, P x = .ok b) →
      (∃ r, FilterE S P = .ok r ∧ r = Filter S (fun x => valueOr false (P x)))
      ∧ (∃ r, FindIndexE S P = .ok r ∧ r = FindIndex S (fun x => valueOr false (P x)))
      ∧ (∃ r, EveryE S P = .ok r ∧ r = Every S (fun x => valueOr false (P x))))
    ∧ ((∀ acc x, ∃ b, G acc x = .ok b) →
        ∃ r, ReduceE S G start = .ok r
          ∧ r = Reduce S (fun acc x => valueOr start (G acc x)) start)
    ∧ ((∀ x ∈ S, ∃ b, F x = .ok b) → size * S.length ≤ maxAlloc →
        ∃ r, MapE size S F = .ok r ∧ r.length = S.length
          ∧ Map S (fun x => valueOr default (F x)) = .ok r)
    ∧ (∀ (i : Nat) (v : B) (res : List B), res.length = S.length → i < S.length →
        setIdx res (i : Int) v = .ok (res.set i v))
    ∧ (maxAlloc < size * S.length → MapE size S F = .error .makesliceLen)
    ∧ FilterE ([] : List A) P = .ok [] ∧ FindIndexE ([] : List A) P = .ok (-1)
    ∧ EveryE ([] : List A) P = .ok true ∧ ReduceE ([] : List A) G start = .ok start
    ∧ MapE size ([] : List A) F = .ok []
    ∧ EveryE [1, 2] (fun (x : Int) => if x = 2 then .error .callee else .ok true)
        = .error .callee
    ∧ MapE intBytes [1, 2, 3] (fun x => .ok (double x)) = .ok [2, 4, 6] := by
  refine ⟨?_, ?_, ?_, ?_, ?_, rfl, rfl, rfl, rfl, ?_, by decide, by decide⟩
  · intro h
    have hq : ∀ x ∈ S, P x = .ok (valueOr false (P x)) := by
      intro x hx
      obtain ⟨b, hb⟩ := h x hx
      rw [hb]; rfl
    exact ⟨⟨_, FilterE_loop_ok P _ S [] hq, rfl⟩, ⟨_, FindIndexE_loop_ok P _ S 0 hq, rfl⟩,
      ⟨_, EveryE_ok P _ S hq, rfl⟩⟩
  · intro h
    have hq : ∀ acc x, G acc x = .ok (valueOr start (G acc x)) := by
      intro acc x
      obtain ⟨b, hb⟩ := h acc x
      rw [hb]; rfl
    exact ⟨_, ReduceE_loop_ok G _ S start hq, rfl⟩
  · intro h hfit
    have hq : ∀ x ∈ S, F x = .ok (valueOr default (F x)) := by
      intro x hx
      obtain ⟨b, hb⟩ := h x hx
      rw [hb]; rfl
    refine ⟨S.map (fun x => valueOr default (F x)), ?_, by simp, Map_eq_map S _⟩
    rw [MapE_ok size S F _ hq hfit, Map_eq_map]
  · intro i v res hlen hi
    simp [setIdx, hlen, hi]
  · intro hbig
    exact MapE_of_large size S F hbig
  · have hm : (makeslice size ((([] : List A).length : Nat) : Int) : Except Fault (List B))
        = .ok [] := by
      rw [makeslice_of_fits size _ (by simp) (by simp)]; rfl
    rw [MapE, hm]; rfl

/-- C13 fails as stated: `Map` of a slice of `2^45 + 1` values of the
zero-sized type `struct{}` (Lean's `Unit`) into `[]int` (8 bytes an element),
with a transform that always returns, asks `make` for `8 * (2^45 + 1)` bytes,
more than the allocation limit, and panics. -/
theorem Map_fails_above_allocation_limit :
    (∀ x : Unit, ∃ b : Int, (fun _ => Except.ok 0 : Unit → Except Fault Int) x = .ok b)
    ∧ maxAlloc < intBytes * (List.replicate (2 ^ 45 + 1) ()).length
    ∧ MapE intBytes (List.replicate (2 ^ 45 + 1) ()) (fun _ => Except.ok (0 : Int))
        = .error .makesliceLen := by
  have hbig : maxAlloc < intBytes * (List.replicate (2 ^ 45 + 1) ()).length := by
    rw [List.length_replicate]
    simp only [maxAlloc, intBytes, intBits]
    norm_num
  exact ⟨fun _ => ⟨0, rfl⟩, hbig, MapE_of_large _ _ _ hbig⟩

/-- C16 (as the code has it): for `start <= end` `Range` returns the empty
slice; for `start > end` it asks `make` for a slice of length `end - start` and
panics, returning no slice, whenever that length is negative (`end - start` is
not below the smallest `int`) or, after wrap-around, takes more bytes than the
allocation limit, as in `Range(1, minInt)`.  So a call returns a non-empty
slice only when `end - start` wraps around to a length within the allocation
limit. -/
theorem Range_as_coded (start end_ : Int) :
    (start ≤ end_ → Range start end_ = .ok [])
    ∧ (end_ < start → minInt ≤ end_ - start → Range start end_ = .error .makesliceLen)
    ∧ (end_ < start → (maxAlloc : Int) < (intBytes : Int) * wrapInt (end_ - start) →
        Range start end_ = .error .makesliceLen)
    ∧ Range 1 minInt = .error .makesliceLen
    ∧ (∀ r : List Int, Range start end_ = .ok r → r ≠ [] →
        end_ - start < minInt
        ∧ (intBytes : Int) * wrapInt (end_ - start) ≤ (maxAlloc : Int)) := by
  refine ⟨Range_of_le start end_, Range_of_gt start end_, Range_of_large start end_,
    by decide, ?_⟩
  intro r hr hne
  by_cases hle : start ≤ end_
  · rw [Range_of_le start end_ hle] at hr
    cases hr
    exact absurd rfl hne
  · refine ⟨?_, ?_⟩
    · by_contra hov
      rw [Range_of_gt start end_ (by omega) (by omega)] at hr
      cases hr
    · by_contra hbig
      rw [Range_of_large start end_ (by omega) (by omega)] at hr
      cases hr

/-- C16 fails as stated: with `start` the largest and `end` the smallest `int`
(so `start > end`) the length `end - start` wraps around to `1`, `make`
succeeds, and `Range` returns the non-empty slice `[maxInt]`. -/
theorem Range_overflow_returns_nonempty :
    isInt maxInt ∧ isInt minInt ∧ minInt < maxInt
    ∧ Range maxInt minInt = .ok [maxInt]
    ∧ ¬ (∀ start end_ : Int, isInt start → isInt end_ → end_ < start →
          ∃ e : Fault, Range start end_ = .error e) := by
  refine ⟨by decide, by decide, by decide, by decide, ?_⟩
  intro h
  obtain ⟨e, he⟩ := h maxInt minInt (by decide) (by decide) (by decide)
  have hr : Range maxInt minInt = .ok [maxInt] := by decide
  rw [hr] at he
  cases he

/-- C14: `FindIndex` short-circuits.  Run with any predicate `P`, with side
effects or not, whose calls are logged: the logging changes neither the result
nor the state `P` leaves; if no call answers true the result is `-1` and the
calls are exactly one on each element of `S`, in order; otherwise the result is
an index `i < len(S)`, the calls are exactly one on each of `S[0], ..., S[i]`,
in order, the first `i` answering false and the last true, and there is no call
on `S[i+1], ...`.  For a pure predicate `Q` the result is that of `FindIndex`
and the logged arguments are `S[0..FindIndex(S,Q)]`, or all of `S` when
`FindIndex(S, Q) = -1`.  With a predicate that counts its calls,
`FindIndex([1,3,5], x == 3)` returns `1` after two calls. -/
theorem FindIndex_short_circuits {A σ : Type} (S : List A) (P : A → σ → Bool × σ)
    (Q : A → Bool) (s : σ) :
    (∃ calls : List (A × Bool),
      FindIndexSt S (logged P) (s, [])
        = ((FindIndexSt S P s).1, ((FindIndexSt S P s).2, calls))
      ∧ (((FindIndexSt S P s).1 = -1 ∧ calls.map Prod.fst = S
            ∧ calls.map Prod.snd = List.replicate S.length false)
        ∨ ∃ i : Nat, i < S.length ∧ (FindIndexSt S P s).1 = (i : Int)
            ∧ calls.map Prod.fst = S.take (i + 1)
            ∧ calls.map Prod.snd = List.replicate i false ++ [true]))
    ∧ FindIndexSt S (pureSt Q) s = (FindIndex S Q, s)
    ∧ (FindIndexSt S (logged (pureSt Q)) (s, [])).2.2.map Prod.fst
        = (if FindIndex S Q = -1 then S else S.take ((FindIndex S Q).toNat + 1))
    ∧ FindIndexSt [1, 3, 5] (fun (a : Int) (n : Nat) => (a == 3, n + 1)) 0 = (1, 2) := by
  have hpure : FindIndexSt S (pureSt Q) s = (FindIndex S Q, s) :=
    FindIndexSt_loop_pure Q S 0 s
  refine ⟨?_, hpure, ?_, by decide⟩
  · obtain ⟨calls, h1, h2⟩ := FindIndexSt_loop_logged P S 0 s []
    refine ⟨calls, by simpa [FindIndexSt] using h1, ?_⟩
    simpa [FindIndexSt] using h2
  · obtain ⟨calls, h1, h2⟩ := FindIndexSt_loop_logged (pureSt Q) S 0 s []
    have hp1 : (FindIndexSt.loop (pureSt Q) S 0 s).1 = FindIndex S Q := by
      rw [FindIndexSt_loop_pure]; rfl
    rw [FindIndexSt, h1]
    simp only [List.nil_append]
    rw [hp1] at h2
    rcases h2 with ⟨a1, a2, _⟩ | ⟨i, _, b2, b3, _⟩
    · rw [if_pos a1, a2]
    · have hne : FindIndex S Q ≠ -1 := by rw [b2]; omega
      have hi : (FindIndex S Q).toNat = i := by rw [b2]; simp
      rw [if_neg hne, hi, b3]

/-- C15: `Every` short-circuits.  Run with any predicate `P`, with side effects
or not, whose calls are logged: the logging changes neither the result nor the
state `P` leaves; if every call answers true the result is true and the calls
are exactly one on each element of `S`, in order; otherwise the result is
false and, for the first index `i` whose call answers false, the calls are
exactly one on each of `S[0], ..., S[i]`, in order, with no call on any later
element.  For a pure predicate `Q` the result is that of `Every`.  With a
predicate that counts its calls, `Every([2,3,4], isEven)` returns false after
two calls. -/
theorem Every_short_circuits {A σ : Type} (S : List A) (P : A → σ → Bool × σ)
    (Q : A → Bool) (s : σ) :
    (∃ calls : List (A × Bool),
      EverySt S (logged P) (s, [])
        = ((EverySt S P s).1, ((EverySt S P s).2, calls))
      ∧ (((EverySt S P s).1 = true ∧ calls.map Prod.fst = S
            ∧ calls.map Prod.snd = List.replicate S.length true)
        ∨ ∃ i : Nat, i < S.length ∧ (EverySt S P s).1 = false
            ∧ calls.map Prod.fst = S.take (i + 1)
            ∧ calls.map Prod.snd = List.replicate i true ++ [false]))
    ∧ EverySt S (pureSt Q) s = (Every S Q, s)
    ∧ EverySt [2, 3, 4] (fun (a : Int) (n : Nat) => (isEven a, n + 1)) 0 = (false, 2) := by
  refine ⟨?_, EverySt_pure Q S s, by decide⟩
  obtain ⟨calls, h1, h2⟩ := EverySt_logged P S s []
  exact ⟨calls, by simpa using h1, h2⟩

end Godash
